import Mathlib

/-!
# slasher: a shallow embedding of `slasher.go`

The development follows the source file top to bottom:

* the redirect hook `CheckRedirect` installed by `fetch` (lines 154-180),
* the retry loop of `fetch` and the final-URL normalisation (lines 189-227),
* `processURL` (lines 230-295),
* the output loop of `main` (lines 369-388).

Go strings are Lean strings; `err.Error()` is the only thing the program
ever asks of an error, so an error is its message.  Go `int` values are
`Int` (no arithmetic is done on them besides comparison).
-/

set_option autoImplicit false

namespace Slasher

/-! ## Standard-library string helpers -/

/-- Go `strings.Contains(s, substr)`: `substr` occurs in `s` as a contiguous block. -/
def stringsContains (s substr : String) : Bool :=
  decide (substr.data <:+: s.data)

/-- Go `strings.Replace(s, old, new, -1)` for a one-character `old`, the only
way the program calls it: every occurrence of `old` is replaced by `new`. -/
def stringsReplace (s : String) (old : Char) (new : String) : String :=
  String.mk (s.data.flatMap (fun c => if c = old then new.data else [c]))

/-! ## Requests and headers -/

/-- Go `http.Header`, a map from header name to its values, as the list of
its entries. -/
abbrev Header := List (String × List String)

/-- Map read `h[k]`. -/
def Header.get : Header → String → Option (List String)
  | [], _ => none
  | (k', v) :: rest, k => if k' = k then some v else Header.get rest k

/-- Map write `h[k] = v`. -/
def Header.assign : Header → String → List String → Header
  | [], k, v => [(k, v)]
  | (k', v') :: rest, k, v =>
    if k' = k then (k, v) :: rest else (k', v') :: Header.assign rest k v

/-- Go `h.Set(key, value)`: `h[key] = []string{value}`, for a `key` that is
already in canonical MIME form (as every key the program passes is). -/
def Header.Set (h : Header) (key value : String) : Header :=
  h.assign key [value]

/-- The fields of `http.Request` the program reads or writes. -/
structure Request where
  Method : String
  URL : String
  Header : Header := []
  ContentLength : Int := 0
deriving DecidableEq, Repr

/-! ## The redirect hook of `fetch` (lines 154-180) -/

/-- What the hook returns instead of `nil`; `indexOutOfRange` is the run-time
panic of `via[0]` on an empty `via`. -/
inductive HookError where
  | ErrUseLastResponse
  | indexOutOfRange
deriving DecidableEq, Repr

/-- The `CheckRedirect` closure of lines 154-180.  `followRedirects` is the
package-level flag; the result is the error returned, or the upcoming request
`req` as the hook leaves it when it returns `nil`. -/
def CheckRedirect (followRedirects : Bool) (req : Request) (via : List Request) :
    Except HookError Request :=
  if !followRedirects then
    .error .ErrUseLastResponse
  else if via.length ≥ 10 then
    .error .ErrUseLastResponse
  else
    match via with
    | [] => .error .indexOutOfRange
    | first :: _ =>
      let originalMethod := first.Method
      let req := { req with Method := originalMethod }
      if originalMethod = "POST" then
        let req := { req with
          Header := List.foldl (fun (h : Header) (kv : String × List String) => h.assign kv.1 kv.2)
            req.Header first.Header }
        let req := { req with ContentLength := 0 }
        .ok { req with Header := req.Header.Set "Content-Type" "application/x-www-form-urlencoded" }
      else
        .ok req

/-- The redirect loop of `net/http`'s `Client.Do`, reduced to what concerns the
hook: `reqs` are the requests made already, oldest first, each of them answered
by a redirect; `next reqs` is the upcoming request the library builds; the hook
is asked, and on `nil` the request is made and the loop goes on.  The value is
the number of redirects followed within `fuel` rounds. -/
def redirectsFollowed (followRedirects : Bool) (next : List Request → Request) :
    Nat → List Request → Nat
  | 0, _ => 0
  | fuel + 1, reqs =>
    match CheckRedirect followRedirects (next reqs) reqs with
    | .error _ => 0
    | .ok req => 1 + redirectsFollowed followRedirects next fuel (reqs ++ [req])

/-! ## Final-URL normalisation (lines 201-213) -/

/-- The fields of `net/url`'s `URL`. -/
structure URL where
  Scheme : String := ""
  Opaque : String := ""
  User : String := ""
  Host : String := ""
  Path : String := ""
  RawQuery : String := ""
  Fragment : String := ""
deriving DecidableEq, Repr

/-- Go `strings.LastIndexByte(s, c)`, `none` for `-1`. -/
def lastIndexByte : List Char → Char → Option Nat
  | [], _ => none
  | x :: xs, c =>
    match lastIndexByte xs c with
    | some i => some (i + 1)
    | none => if x = c then some 0 else none

/-- The function `validOptionalPort` of `net/url`: empty, or a colon followed by
decimal digits only. -/
def validOptionalPort : List Char → Bool
  | [] => true
  | c :: digits => c = ':' && digits.all (fun b => decide ('0' ≤ b ∧ b ≤ '9'))

/-- The function `splitHostPort` of `net/url`: a valid port after the last
colon is split off, then square brackets around the host are removed. -/
def splitHostPort (hostPort : String) : String × String :=
  let hp := hostPort.data
  let split : List Char × List Char :=
    match lastIndexByte hp ':' with
    | some colon =>
      if validOptionalPort (hp.drop colon) then (hp.take colon, hp.drop (colon + 1))
      else (hp, [])
    | none => (hp, [])
  let host := split.1
  let host :=
    if host.head? = some '[' ∧ host.getLast? = some ']' then
      (host.drop 1).take (host.length - 2)
    else host
  (String.mk host, String.mk split.2)

/-- Go `u.Hostname()`. -/
def URL.Hostname (u : URL) : String := (splitHostPort u.Host).1

/-- Go `u.Port()`. -/
def URL.Port (u : URL) : String := (splitHostPort u.Host).2

/-- Lines 206-211: the default port is removed from the parsed URL. -/
def removeDefaultPort (parsedURL : URL) : URL :=
  if parsedURL.Scheme = "http" ∧ parsedURL.Port = "80" then
    { parsedURL with Host := parsedURL.Hostname }
  else if parsedURL.Scheme = "https" ∧ parsedURL.Port = "443" then
    { parsedURL with Host := parsedURL.Hostname }
  else parsedURL

/-- Lines 205-213.  `parse` is `neturl.Parse` (`none` when it returns an error)
and `render` is `(*URL).String`. -/
def normalizeFinalURL (parse : String → Option URL) (render : URL → String)
    (finalURL : String) : String :=
  match parse finalURL with
  | some parsedURL => render (removeDefaultPort parsedURL)
  | none => finalURL

/-! ## Results (lines 114-126) -/

/-- The `Result` struct.  `Error` is `none` for Go `nil`. -/
structure Result where
  URL : String := ""
  FinalURL : String := ""
  Label : String := ""
  Method : String := ""
  Size : Int := 0
  Status : Int := 0
  OriginalSize : Int := 0
  OriginalStatus : Int := 0
  OriginalURL : String := ""
  OriginalFinalURL : String := ""
  Error : Option String := none
deriving DecidableEq, Repr

/-- The three values `fetch` returns beside the error: size, status, final URL. -/
structure FetchOk where
  size : Int
  status : Int
  finalURL : String
deriving DecidableEq, Repr

/-- Outcome of one `fetch` call: the error message, or the three values. -/
abbrev FetchRes := Except String FetchOk

/-! ## fetch (lines 129-228) -/

/-- What one call `client.Do(req)` gives: an error, or a response, of which
the program uses the body (reading it with `io.ReadAll` may fail; otherwise
only its length matters), the status code and `resp.Request.URL.String()`. -/
inductive DoResult where
  | failed (err : String)
  | response (body : Except String Nat) (StatusCode : Int) (requestURL : String)
deriving Repr

/-- Everything outside the program that a call of `fetch` depends on. -/
structure FetchEnv where
  /-- The error of `http.NewRequest(method, url, nil)`, if it returns one. -/
  newRequest : String → String → Option String
  /-- The outcome of the call `client.Do(req)` made in round `i` of the retry loop. -/
  clientDo : Request → Nat → DoResult
  /-- The function `neturl.Parse`. -/
  parse : String → Option URL
  /-- The method `(*URL).String`. -/
  render : URL → String

/-- What a call of `fetch` does beside returning: the number of calls of
`client.Do` and the arguments of `time.Sleep`, in seconds and in order. -/
structure FetchLog where
  attempts : Nat := 0
  sleeps : List Nat := []
deriving DecidableEq, Repr

/-- The constant `maxRetries` of line 190. -/
def maxRetries : Nat := 3

/-- The loop of lines 192-225 together with the `return` of line 227, from
round `i` on with `rounds` rounds left.  A `nil` error with the zero values is
what line 227 returns when `lastErr` was never set. -/
def fetchLoop (env : FetchEnv) (req : Request) :
    Nat → Nat → Option String → FetchLog → FetchRes × FetchLog
  | 0, _, lastErr, log =>
    match lastErr with
    | some err => (.error err, log)
    | none => (.ok ⟨0, 0, ""⟩, log)
  | rounds + 1, i, _, log =>
    let log := { log with attempts := log.attempts + 1 }
    match env.clientDo req i with
    | .response body StatusCode requestURL =>
      match body with
      | .error err => (.error err, log)
      | .ok len =>
        (.ok ⟨len, StatusCode, normalizeFinalURL env.parse env.render requestURL⟩, log)
    | .failed err =>
      if !stringsContains err "timeout" then
        (.error err, log)
      else
        fetchLoop env req rounds (i + 1) (some err)
          { log with sleeps := log.sleeps ++ [i + 1] }

/-- The request `fetch` builds in lines 130-138 and 184-187. -/
def buildRequest (url method : String) : Request :=
  let req : Request := { Method := method, URL := url }
  let userAgent := "Mozilla/5.0 (Windows NT 10.0; Win64; x64) AppleWebKit/537.36"
  let req := { req with Header := req.Header.Set "User-Agent" userAgent }
  let req := { req with Header := req.Header.Set "Accept" "*/*" }
  let req := { req with Header := req.Header.Set "Accept-Language" "en-US,en;q=0.9" }
  if method = "POST" then
    { req with ContentLength := 0,
               Header := req.Header.Set "Content-Type" "application/x-www-form-urlencoded" }
  else req

/-- The function `fetch`. -/
def fetch (env : FetchEnv) (url method : String) : FetchRes × FetchLog :=
  match env.newRequest method url with
  | some err => (.error err, {})
  | none => fetchLoop env (buildRequest url method) maxRetries 0 none {}

/-! ## processURL (lines 230-295) -/

/-- The `variants` map literal of lines 231-242, as its list of entries in
source order. -/
def variants (original : String) : List (String × String) :=
  [ ("original", original),
    ("trailing-slash", original ++ "/"),
    ("trailing-null", original ++ "%00"),
    ("trailing-dot", original ++ "/."),
    ("double-slash", original ++ "//"),
    ("backslash", stringsReplace original '/' "\\"),
    ("encoded-slash", stringsReplace original '/' "%2f"),
    ("encoded-backslash", stringsReplace original '/' "%5c"),
    ("double-encoded-slash", stringsReplace original '/' "%252f"),
    ("triple-encoded-slash", stringsReplace original '/' "%25252f") ]

/-- The `methods` slice of line 245. -/
def methods : List String := ["GET", "POST"]

/-- A call of `fetch` made by `processURL`: the baseline call of line 247 or
the call of line 265 inside the loop over the variants. -/
inductive Call where
  | baseline (url method : String)
  | variant (label url method : String)
deriving DecidableEq, Repr

/-- What one run of `processURL` does that is visible from outside: the
values sent on the `results` channel, in order, and the `fetch` calls made,
in order. -/
structure Run where
  results : List Result := []
  fetched : List Call := []
deriving DecidableEq, Repr

/-- Sequential composition of two pieces of a run. -/
def Run.append (a b : Run) : Run :=
  { results := a.results ++ b.results, fetched := a.fetched ++ b.fetched }

/-- The error test of lines 249 and 267. -/
def isNoHost (err : String) : Bool :=
  stringsContains err "no Host in request URL"

/-- The `Result` sent at lines 250-255 and 268-273. -/
def failureResult (url label method err : String) : Result :=
  { URL := url, Label := label, Method := method, Error := some err }

/-- The `Result` sent at lines 280-291. -/
def mismatchResult (original label variant method : String) (o b : FetchOk) : Result :=
  { URL := variant, FinalURL := o.finalURL, Label := label, Method := method,
    Size := o.size, Status := o.status,
    OriginalSize := b.size, OriginalStatus := b.status,
    OriginalURL := original, OriginalFinalURL := b.finalURL }

/-- Body of the inner loop (lines 260-293) for one map entry. -/
def variantStep (fetch : String → String → FetchRes) (original method : String)
    (b : FetchOk) (entry : String × String) : Run :=
  let label := entry.1
  let variant := entry.2
  if variant = original then
    {}
  else
    match fetch variant method with
    | .error err =>
      { results := if !isNoHost err then [failureResult variant label method err] else [],
        fetched := [Call.variant label variant method] }
    | .ok o =>
      { results :=
          if o.size ≠ b.size ∧ (o.status < 400 ∨ o.status ≥ 500) then
            [mismatchResult original label variant method o b]
          else [],
        fetched := [Call.variant label variant method] }

/-- Body of the outer loop (lines 246-294) for one method.  `order` is the
order in which this `range` over the map visits its entries. -/
def methodStep (fetch : String → String → FetchRes) (original : String)
    (order : List (String × String)) (method : String) : Run :=
  match fetch original method with
  | .error err =>
    { results := if !isNoHost err then [failureResult original "original" method err] else [],
      fetched := [Call.baseline original method] }
  | .ok b =>
    order.foldl (fun acc entry => acc.append (variantStep fetch original method b entry))
      { fetched := [Call.baseline original method] }

/-- The function `processURL`.  `fetch url method` is the outcome of the call
`fetch(url, method)` in this run: no pair is fetched twice in a run
(`processURL_requests_nodup`), so this describes any behaviour of the network.
A Go `range` over a map visits the entries in an unspecified order, chosen
afresh for every loop, so `iter method` is the order used by the loop run for
`method`: the theorems assume it is a permutation of `variants original`. -/
def processURL (fetch : String → String → FetchRes)
    (iter : String → List (String × String)) (original : String) : Run :=
  methods.foldl (fun acc method => acc.append (methodStep fetch original (iter method) method)) {}

/-- The arguments `(url, method)` of a call of `fetch`. -/
def Call.request : Call → String × String
  | Call.baseline url method => (url, method)
  | Call.variant _ url method => (url, method)

/-- The entries `(label, url)` fetched at line 265 under `method`, in order. -/
def probedIn (calls : List Call) (method : String) : List (String × String) :=
  calls.filterMap (fun c =>
    match c with
    | Call.variant label url m => if m = method then some (label, url) else none
    | Call.baseline _ _ => none)

/-- The entries fetched as variants under `method` in a run. -/
def Run.probed (run : Run) (method : String) : List (String × String) :=
  probedIn run.fetched method

/-! ## The output loop of main (lines 369-388) -/

/-- One call of `fmt.Printf` or `fmt.Println` of the output loop, with its
arguments. -/
inductive Output where
  | errorLine (label url method err : String)
  | mismatchLine (label method : String)
  | originalLine (url : String) (size status : Int)
  | originalRedirectLine (url finalURL : String)
  | variantLine (finalURL : String) (size status : Int)
  | variantRedirectLine (url finalURL : String)
  | emptyLine
deriving DecidableEq, Repr

/-- Body of the loop of lines 370-388 for one received `result`. -/
def printResult (result : Result) : List Output :=
  match result.Error with
  | some err => [Output.errorLine result.Label result.URL result.Method err]
  | none =>
    if result.Size ≠ 0 then
      [Output.mismatchLine result.Label result.Method,
       Output.originalLine result.OriginalURL result.OriginalSize result.OriginalStatus]
      ++ (if result.OriginalURL ≠ result.OriginalFinalURL then
            [Output.originalRedirectLine result.OriginalURL result.OriginalFinalURL] else [])
      ++ [Output.variantLine result.FinalURL result.Size result.Status]
      ++ (if result.URL ≠ result.FinalURL then
            [Output.variantRedirectLine result.URL result.FinalURL] else [])
      ++ [Output.emptyLine]
    else []

/-- The loop of lines 370-388 over everything received from the channel. -/
def printResults (results : List Result) : List Output :=
  results.flatMap printResult

/-! ## Concrete inputs used to exercise the theorems -/

/-- A base URL with a path. -/
def scenarioURL : String := "http://example.com/admin"

/-- A server for `scenarioURL`: the baseline is 512 bytes with status 403, the
trailing-slash variant 2048 bytes with status 200, the trailing-null variant
100 bytes with status 404, the trailing-dot variant an empty body with status
200, the double-slash variant is refused, and every other URL has no host. -/
def scenarioFetch : String → String → FetchRes := fun url _ =>
  if url = "http://example.com/admin" then .ok ⟨512, 403, url⟩
  else if url = "http://example.com/admin/" then .ok ⟨2048, 200, url⟩
  else if url = "http://example.com/admin%00" then .ok ⟨100, 404, url⟩
  else if url = "http://example.com/admin/." then .ok ⟨0, 200, url⟩
  else if url = "http://example.com/admin//" then .error "connection refused"
  else .error "http: no Host in request URL"

/-- A server that refuses every connection. -/
def refusedFetch : String → String → FetchRes :=
  fun _ _ => .error "dial tcp: connection refused"

/-- An environment in which every call of `client.Do` times out while waiting
for the response headers. -/
def alwaysTimeoutEnv : FetchEnv where
  newRequest := fun _ _ => none
  clientDo := fun _ _ => .failed "net/http: timeout awaiting response headers"
  parse := fun _ => none
  render := fun u => u.Host

/-- An environment in which every connection is refused. -/
def refusedEnv : FetchEnv where
  newRequest := fun _ _ => none
  clientDo := fun _ _ => .failed "dial tcp 127.0.0.1:80: connect: connection refused"
  parse := fun _ => none
  render := fun u => u.Host

/-- The first request of a GET fetch of `scenarioURL`. -/
def getFirst : Request := buildRequest scenarioURL "GET"

/-- The upcoming request `net/http` hands to the hook when the GET fetch of
`scenarioURL` is redirected to `/login`: the headers of the first request,
copied by the library, and the Referer it adds. -/
def getNext : Request :=
  { Method := "GET", URL := "http://example.com/login",
    Header := getFirst.Header.Set "Referer" scenarioURL }

/-! ## Lemmas on runs -/

theorem foldl_append_results {α : Type} (f : α → Run) (l : List α) (init : Run) :
    (l.foldl (fun acc e => acc.append (f e)) init).results
      = init.results ++ l.flatMap (fun e => (f e).results) := by
  induction l generalizing init with
  | nil => simp
  | cons a l ih =>
    rw [List.foldl_cons, ih]
    simp [Run.append, List.append_assoc]

theorem foldl_append_fetched {α : Type} (f : α → Run) (l : List α) (init : Run) :
    (l.foldl (fun acc e => acc.append (f e)) init).fetched
      = init.fetched ++ l.flatMap (fun e => (f e).fetched) := by
  induction l generalizing init with
  | nil => simp
  | cons a l ih =>
    rw [List.foldl_cons, ih]
    simp [Run.append, List.append_assoc]

theorem processURL_results (fetch : String → String → FetchRes)
    (iter : String → List (String × String)) (original : String) :
    (processURL fetch iter original).results
      = (methodStep fetch original (iter "GET") "GET").results
        ++ (methodStep fetch original (iter "POST") "POST").results := by
  simp [processURL, methods, Run.append]

theorem processURL_fetched (fetch : String → String → FetchRes)
    (iter : String → List (String × String)) (original : String) :
    (processURL fetch iter original).fetched
      = (methodStep fetch original (iter "GET") "GET").fetched
        ++ (methodStep fetch original (iter "POST") "POST").fetched := by
  simp [processURL, methods, Run.append]

theorem methodStep_ok_results (fetch : String → String → FetchRes) (original method : String)
    (order : List (String × String)) (b : FetchOk) (hb : fetch original method = .ok b) :
    (methodStep fetch original order method).results
      = order.flatMap (fun e => (variantStep fetch original method b e).results) := by
  simp [methodStep, hb, foldl_append_results]

theorem methodStep_ok_fetched (fetch : String → String → FetchRes) (original method : String)
    (order : List (String × String)) (b : FetchOk) (hb : fetch original method = .ok b) :
    (methodStep fetch original order method).fetched
      = Call.baseline original method
        :: order.flatMap (fun e => (variantStep fetch original method b e).fetched) := by
  simp [methodStep, hb, foldl_append_fetched]

theorem methodStep_error_results (fetch : String → String → FetchRes) (original method : String)
    (order : List (String × String)) (err : String) (hb : fetch original method = .error err) :
    (methodStep fetch original order method).results
      = if !isNoHost err then [failureResult original "original" method err] else [] := by
  simp [methodStep, hb]

theorem methodStep_error_fetched (fetch : String → String → FetchRes) (original method : String)
    (order : List (String × String)) (err : String) (hb : fetch original method = .error err) :
    (methodStep fetch original order method).fetched = [Call.baseline original method] := by
  simp [methodStep, hb]

theorem variantStep_label_method (fetch : String → String → FetchRes) (original method : String)
    (b : FetchOk) (e : String × String) (r : Result)
    (hr : r ∈ (variantStep fetch original method b e).results) :
    r.Label = e.1 ∧ r.Method = method ∧ r.URL = e.2 := by
  unfold variantStep at hr
  by_cases h : e.2 = original
  · simp [h] at hr
  · simp only [h, if_false] at hr
    cases hf : fetch e.2 method with
    | error err =>
      simp only [hf] at hr
      split at hr
      · simp only [List.mem_singleton] at hr
        subst hr
        simp [failureResult]
      · simp at hr
    | ok o =>
      simp only [hf] at hr
      split at hr
      · simp only [List.mem_singleton] at hr
        subst hr
        simp [mismatchResult]
      · simp at hr

theorem methodStep_method (fetch : String → String → FetchRes) (original method : String)
    (order : List (String × String)) (r : Result)
    (hr : r ∈ (methodStep fetch original order method).results) : r.Method = method := by
  cases hb : fetch original method with
  | error err =>
    rw [methodStep_error_results _ _ _ _ _ hb] at hr
    split at hr
    · simp only [List.mem_singleton] at hr
      subst hr
      rfl
    · simp at hr
  | ok b =>
    rw [methodStep_ok_results _ _ _ _ _ hb, List.mem_flatMap] at hr
    obtain ⟨e, _, he⟩ := hr
    exact (variantStep_label_method _ _ _ _ _ _ he).2.1

theorem variants_labels (original : String) :
    (variants original).map Prod.fst
      = ["original", "trailing-slash", "trailing-null", "trailing-dot", "double-slash",
         "backslash", "encoded-slash", "encoded-backslash", "double-encoded-slash",
         "triple-encoded-slash"] := rfl

theorem variants_labels_nodup (original : String) :
    ((variants original).map Prod.fst).Nodup := by
  rw [variants_labels]
  decide

theorem order_labels_nodup (original : String) (order : List (String × String))
    (hperm : order.Perm (variants original)) : (order.map Prod.fst).Nodup :=
  ((hperm.map Prod.fst).nodup_iff).2 (variants_labels_nodup original)

/-- In a list of entries with distinct labels, the results carrying one label
and the given method are those of the entry with that label. -/
theorem filter_flatMap_label (g : String × String → List Result) (method : String) :
    ∀ (order : List (String × String)) (label variant : String),
      (order.map Prod.fst).Nodup → (label, variant) ∈ order →
      (∀ e r, r ∈ g e → r.Label = e.1 ∧ r.Method = method) →
      (order.flatMap g).filter (fun r => decide (r.Label = label ∧ r.Method = method))
        = g (label, variant)
  | [], _, _, _, hmem, _ => by simp at hmem
  | e :: rest, label, variant, hnd, hmem, hg => by
    rw [List.map_cons, List.nodup_cons] at hnd
    rw [List.flatMap_cons, List.filter_append]
    rcases List.mem_cons.1 hmem with he | he
    · subst he
      have h1 : (g (label, variant)).filter
          (fun r => decide (r.Label = label ∧ r.Method = method)) = g (label, variant) := by
        rw [List.filter_eq_self]
        intro r hr
        have := hg _ r hr
        simp [this.1, this.2]
      have h2 : (rest.flatMap g).filter
          (fun r => decide (r.Label = label ∧ r.Method = method)) = [] := by
        rw [List.filter_eq_nil_iff]
        intro r hr
        obtain ⟨e', he', hr'⟩ := List.mem_flatMap.1 hr
        have hlab := (hg _ r hr').1
        have hfst : e'.1 ∈ rest.map Prod.fst := List.mem_map_of_mem Prod.fst he'
        have hne : e'.1 ≠ label := by
          intro heq
          rw [heq] at hfst
          exact hnd.1 hfst
        simp [hlab, hne]
      rw [h1, h2, List.append_nil]
    · have hfst : label ∈ rest.map Prod.fst := List.mem_map_of_mem Prod.fst he
      have hne : e.1 ≠ label := by
        intro heq
        rw [← heq] at hfst
        exact hnd.1 hfst
      have h1 : (g e).filter
          (fun r => decide (r.Label = label ∧ r.Method = method)) = [] := by
        rw [List.filter_eq_nil_iff]
        intro r hr
        have hlab := (hg _ r hr).1
        simp [hlab, hne]
      rw [h1, List.nil_append]
      exact filter_flatMap_label g method rest label variant hnd.2 he hg

theorem filter_other_method (fetch : String → String → FetchRes) (original : String)
    (order : List (String × String)) (m method label : String) (hne : m ≠ method) :
    (methodStep fetch original order m).results.filter
      (fun r => decide (r.Label = label ∧ r.Method = method)) = [] := by
  rw [List.filter_eq_nil_iff]
  intro r hr
  have := methodStep_method _ _ _ _ _ hr
  simp [this, hne]

/-- The results of a run that carry a given variant label and method, when the
baseline of that method was fetched: those of the loop body at that entry. -/
theorem processURL_filter (fetch : String → String → FetchRes)
    (iter : String → List (String × String)) (original method label variant : String)
    (b : FetchOk) (hperm : ∀ m, (iter m).Perm (variants original))
    (hm : method ∈ methods) (hb : fetch original method = .ok b)
    (hl : (label, variant) ∈ variants original) :
    (processURL fetch iter original).results.filter
        (fun r => decide (r.Label = label ∧ r.Method = method))
      = (variantStep fetch original method b (label, variant)).results := by
  have key : (methodStep fetch original (iter method) method).results.filter
        (fun r => decide (r.Label = label ∧ r.Method = method))
      = (variantStep fetch original method b (label, variant)).results := by
    rw [methodStep_ok_results _ _ _ _ _ hb]
    exact filter_flatMap_label _ method (iter method) label variant
      (order_labels_nodup original _ (hperm method)) ((hperm method).mem_iff.2 hl)
      (fun e r hr => ⟨(variantStep_label_method _ _ _ _ _ _ hr).1,
        (variantStep_label_method _ _ _ _ _ _ hr).2.1⟩)
  rw [processURL_results, List.filter_append]
  simp only [methods, List.mem_cons, List.mem_singleton, List.not_mem_nil, or_false] at hm
  rcases hm with h | h
  · subst h
    rw [key, filter_other_method _ _ _ "POST" "GET" label (by decide), List.append_nil]
  · subst h
    rw [key, filter_other_method _ _ _ "GET" "POST" label (by decide), List.nil_append]

theorem variantStep_ok (fetch : String → String → FetchRes) (original method label variant : String)
    (b o : FetchOk) (hv : variant ≠ original) (ho : fetch variant method = .ok o) :
    (variantStep fetch original method b (label, variant)).results
      = if o.size ≠ b.size ∧ (o.status < 400 ∨ o.status ≥ 500) then
          [mismatchResult original label variant method o b]
        else [] := by
  simp [variantStep, hv, ho]

theorem variantStep_error (fetch : String → String → FetchRes)
    (original method label variant err : String)
    (b : FetchOk) (hv : variant ≠ original) (ho : fetch variant method = .error err) :
    (variantStep fetch original method b (label, variant)).results
      = if !isNoHost err then [failureResult variant label method err] else [] := by
  simp [variantStep, hv, ho]

/-! ## C1: the comparison law -/

/-- C1. For every base URL, every method of `methods` whose baseline fetch
succeeds with `b`, and every entry of the variants map whose string differs from
the base URL and whose fetch succeeds with `o`: the results of `processURL`
that carry this label and method are exactly the one mismatch result when
`o.size ≠ b.size` and (`o.status < 400` or `o.status ≥ 500`), and there is
none otherwise; in particular a result without error for this label and method
is sent if and only if that condition holds, and none is when
`400 ≤ o.status < 500`. -/
theorem processURL_comparison_law (fetch : String → String → FetchRes)
    (iter : String → List (String × String)) (original method label variant : String)
    (b o : FetchOk) (hperm : ∀ m, (iter m).Perm (variants original))
    (hm : method ∈ methods) (hb : fetch original method = .ok b)
    (hl : (label, variant) ∈ variants original) (hv : variant ≠ original)
    (ho : fetch variant method = .ok o) :
    ((processURL fetch iter original).results.filter
        (fun r => decide (r.Label = label ∧ r.Method = method))
      = if o.size ≠ b.size ∧ (o.status < 400 ∨ o.status ≥ 500) then
          [mismatchResult original label variant method o b]
        else [])
    ∧ ((∃ r ∈ (processURL fetch iter original).results,
          r.Label = label ∧ r.Method = method ∧ r.Error = none)
        ↔ (o.size ≠ b.size ∧ (o.status < 400 ∨ o.status ≥ 500)))
    ∧ ((400 ≤ o.status ∧ o.status < 500) →
        ∀ r ∈ (processURL fetch iter original).results,
          ¬ (r.Label = label ∧ r.Method = method)) := by
  have hfilter := processURL_filter fetch iter original method label variant b hperm hm hb hl
  rw [variantStep_ok fetch original method label variant b o hv ho] at hfilter
  have hmem : ∀ r, (r ∈ (processURL fetch iter original).results
        ∧ r.Label = label ∧ r.Method = method)
      ↔ r ∈ (if o.size ≠ b.size ∧ (o.status < 400 ∨ o.status ≥ 500) then
          [mismatchResult original label variant method o b] else []) := by
    intro r
    rw [← hfilter, List.mem_filter]
    simp
  refine ⟨hfilter, ?_, ?_⟩
  · constructor
    · rintro ⟨r, hr, hlab, hmeth, _⟩
      have := (hmem r).1 ⟨hr, hlab, hmeth⟩
      by_contra hc
      rw [if_neg hc] at this
      simp at this
    · intro hc
      have := (hmem (mismatchResult original label variant method o b)).2
        (by rw [if_pos hc]; simp)
      exact ⟨_, this.1, this.2.1, this.2.2, rfl⟩
  · rintro ⟨h4, h5⟩ r hr ⟨hlab, hmeth⟩
    have := (hmem r).1 ⟨hr, hlab, hmeth⟩
    have hc : ¬ (o.size ≠ b.size ∧ (o.status < 400 ∨ o.status ≥ 500)) := by
      rintro ⟨_, h | h⟩ <;> omega
    rw [if_neg hc] at this
    simp at this

/-- The scenario of C1: baseline 512/403, trailing-slash variant 2048/200 is
reported under GET. -/
theorem processURL_comparison_law_witness :
    (processURL scenarioFetch (fun _ => variants scenarioURL) scenarioURL).results.filter
        (fun r => decide (r.Label = "trailing-slash" ∧ r.Method = "GET"))
      = [mismatchResult scenarioURL "trailing-slash" "http://example.com/admin/" "GET"
          ⟨2048, 200, "http://example.com/admin/"⟩ ⟨512, 403, "http://example.com/admin"⟩] :=
  (processURL_comparison_law scenarioFetch (fun _ => variants scenarioURL) scenarioURL
    "GET" "trailing-slash" "http://example.com/admin/"
    ⟨512, 403, "http://example.com/admin"⟩ ⟨2048, 200, "http://example.com/admin/"⟩
    (fun _ => List.Perm.refl _) (by decide) rfl (by decide) (by decide) rfl).1

/-! ## Which variants are fetched -/

theorem variantStep_fetched (fetch : String → String → FetchRes) (original method : String)
    (b : FetchOk) (e : String × String) :
    (variantStep fetch original method b e).fetched
      = if e.2 = original then [] else [Call.variant e.1 e.2 method] := by
  unfold variantStep
  by_cases h : e.2 = original
  · simp [h]
  · simp only [h, if_false]
    cases fetch e.2 method <;> rfl

theorem probedIn_append (l₁ l₂ : List Call) (method : String) :
    probedIn (l₁ ++ l₂) method = probedIn l₁ method ++ probedIn l₂ method := by
  simp [probedIn, List.filterMap_append]

theorem probedIn_variantSteps (fetch : String → String → FetchRes) (original m method : String)
    (b : FetchOk) (order : List (String × String)) :
    probedIn (order.flatMap (fun e => (variantStep fetch original m b e).fetched)) method
      = if m = method then order.filter (fun e => decide (e.2 ≠ original)) else [] := by
  induction order with
  | nil => simp [probedIn]
  | cons e rest ih =>
    rw [List.flatMap_cons, probedIn_append, ih, variantStep_fetched]
    by_cases hm : m = method <;> by_cases he : e.2 = original <;>
      simp [probedIn, hm, he, List.filter_cons]

theorem probedIn_methodStep (fetch : String → String → FetchRes) (original m method : String)
    (order : List (String × String)) :
    probedIn (methodStep fetch original order m).fetched method
      = match fetch original m with
        | .error _ => []
        | .ok _ => if m = method then order.filter (fun e => decide (e.2 ≠ original)) else [] := by
  cases hb : fetch original m with
  | error err =>
    rw [methodStep_error_fetched _ _ _ _ _ hb]
    simp [probedIn]
  | ok b =>
    rw [methodStep_ok_fetched _ _ _ _ _ hb]
    have := probedIn_variantSteps fetch original m method b order
    simpa [probedIn] using this

/-- Under a method whose baseline fetch fails no variant is fetched. -/
theorem probed_of_baseline_error (fetch : String → String → FetchRes)
    (iter : String → List (String × String)) (original method err : String)
    (hb : fetch original method = .error err) :
    (processURL fetch iter original).probed method = [] := by
  unfold Run.probed
  rw [processURL_fetched, probedIn_append, probedIn_methodStep, probedIn_methodStep]
  by_cases h1 : "GET" = method <;> by_cases h2 : "POST" = method
  · exact absurd (h1.trans h2.symm) (by decide)
  · subst h1
    rw [hb]
    cases fetch original "POST" <;> simp [h2]
  · subst h2
    rw [hb]
    cases fetch original "GET" <;> simp [h1]
  · cases fetch original "GET" <;> cases fetch original "POST" <;> simp [h1, h2]

/-- Under a method of `methods` whose baseline fetch succeeds the entries
fetched are those visited by the loop whose string differs from the base URL. -/
theorem probed_of_baseline_ok (fetch : String → String → FetchRes)
    (iter : String → List (String × String)) (original method : String) (b : FetchOk)
    (hm : method ∈ methods) (hb : fetch original method = .ok b) :
    (processURL fetch iter original).probed method
      = (iter method).filter (fun e => decide (e.2 ≠ original)) := by
  unfold Run.probed
  rw [processURL_fetched, probedIn_append, probedIn_methodStep, probedIn_methodStep]
  simp only [methods, List.mem_cons, List.mem_singleton, List.not_mem_nil, or_false] at hm
  rcases hm with h | h
  · subst h
    rw [hb]
    cases fetch original "POST" <;> simp
  · subst h
    rw [hb]
    cases fetch original "GET" <;> simp

/-! ## The variant strings -/

theorem append_ne_self (u s : String) (hs : s.data ≠ []) : u ++ s ≠ u := by
  intro h
  have hd : (u ++ s).data = u.data := by rw [h]
  rw [String.data_append] at hd
  exact hs (List.append_right_eq_self.1 hd)

theorem flatMap_replace_of_not_mem (old : Char) (new : List Char) :
    ∀ l : List Char, old ∉ l → l.flatMap (fun c => if c = old then new else [c]) = l
  | [], _ => rfl
  | x :: xs, h => by
    have hx : x ≠ old := fun hx => h (hx ▸ List.mem_cons_self _ _)
    have hxs : old ∉ xs := fun hm => h (List.mem_cons_of_mem _ hm)
    rw [List.flatMap_cons, if_neg hx, flatMap_replace_of_not_mem old new xs hxs]
    rfl

theorem stringsReplace_of_not_mem (s : String) (old : Char) (new : String)
    (h : old ∉ s.data) : stringsReplace s old new = s := by
  unfold stringsReplace
  rw [flatMap_replace_of_not_mem old new.data s.data h]

theorem not_mem_stringsReplace (s : String) (old : Char) (new : String)
    (hnew : old ∉ new.data) : old ∉ (stringsReplace s old new).data := by
  unfold stringsReplace
  simp only [List.mem_flatMap, not_exists, not_and]
  intro c _ hc
  by_cases h : c = old
  · rw [if_pos h] at hc
    exact hnew hc
  · rw [if_neg h, List.mem_singleton] at hc
    exact h hc.symm

theorem stringsReplace_ne_of_mem (s : String) (old : Char) (new : String)
    (hnew : old ∉ new.data) (h : old ∈ s.data) : stringsReplace s old new ≠ s := by
  intro heq
  have := not_mem_stringsReplace s old new hnew
  rw [heq] at this
  exact this h

theorem stringsReplace_ne_iff (s : String) (old : Char) (new : String)
    (hnew : old ∉ new.data) : stringsReplace s old new ≠ s ↔ old ∈ s.data := by
  constructor
  · intro hne
    by_contra hc
    exact hne (stringsReplace_of_not_mem s old new hc)
  · exact stringsReplace_ne_of_mem s old new hnew

/-- The entries of the map whose string differs from a base URL without a slash. -/
theorem variants_filter_of_no_slash (original : String) (h : '/' ∉ original.data) :
    (variants original).filter (fun e => decide (e.2 ≠ original))
      = [("trailing-slash", original ++ "/"), ("trailing-null", original ++ "%00"),
         ("trailing-dot", original ++ "/."), ("double-slash", original ++ "//")] := by
  have h1 := append_ne_self original "/" (by decide)
  have h2 := append_ne_self original "%00" (by decide)
  have h3 := append_ne_self original "/." (by decide)
  have h4 := append_ne_self original "//" (by decide)
  simp [variants, List.filter_cons, stringsReplace_of_not_mem _ _ _ h, h1, h2, h3, h4]

/-- Every entry but the first differs from a base URL with a slash. -/
theorem variants_filter_of_slash (original : String) (h : '/' ∈ original.data) :
    (variants original).filter (fun e => decide (e.2 ≠ original))
      = (variants original).tail := by
  have h1 := append_ne_self original "/" (by decide)
  have h2 := append_ne_self original "%00" (by decide)
  have h3 := append_ne_self original "/." (by decide)
  have h4 := append_ne_self original "//" (by decide)
  have h5 := stringsReplace_ne_of_mem original '/' "\\" (by decide) h
  have h6 := stringsReplace_ne_of_mem original '/' "%2f" (by decide) h
  have h7 := stringsReplace_ne_of_mem original '/' "%5c" (by decide) h
  have h8 := stringsReplace_ne_of_mem original '/' "%252f" (by decide) h
  have h9 := stringsReplace_ne_of_mem original '/' "%25252f" (by decide) h
  simp [variants, List.filter_cons, h1, h2, h3, h4, h5, h6, h7, h8, h9]

theorem mem_probed (fetch : String → String → FetchRes)
    (iter : String → List (String × String)) (original method : String) (e : String × String)
    (he : e ∈ (processURL fetch iter original).probed method) :
    e ∈ iter method ∧ e.2 ≠ original := by
  unfold Run.probed at he
  rw [processURL_fetched, probedIn_append, probedIn_methodStep, probedIn_methodStep,
    List.mem_append] at he
  rcases he with he | he
  · cases hb : fetch original "GET" with
    | error err => simp [hb] at he
    | ok b =>
      by_cases hm : "GET" = method
      · subst hm
        simpa [hb] using he
      · simp [hb, hm] at he
  · cases hb : fetch original "POST" with
    | error err => simp [hb] at he
    | ok b =>
      by_cases hm : "POST" = method
      · subst hm
        simpa [hb] using he
      · simp [hb, hm] at he

theorem original_entry (original url : String) (h : ("original", url) ∈ variants original) :
    url = original := by
  simp [variants] at h
  exact h

/-! ## C2: the variants built and fetched -/

/-- C2 (as the code behaves). For every base URL `original` the map holds the
entry `original` and the nine transformations of the table; under every method
whose baseline fetch succeeds an entry is fetched (once) if and only if its
string differs from `original`; the entry labelled `original` is never fetched
as a variant; and for a base URL without a slash exactly the four appending
variants are fetched under every such method. -/
theorem processURL_variants_fetched (fetch : String → String → FetchRes)
    (iter : String → List (String × String)) (original : String)
    (hperm : ∀ m, (iter m).Perm (variants original)) :
    variants original =
        [ ("original", original),
          ("trailing-slash", original ++ "/"),
          ("trailing-null", original ++ "%00"),
          ("trailing-dot", original ++ "/."),
          ("double-slash", original ++ "//"),
          ("backslash", stringsReplace original '/' "\\"),
          ("encoded-slash", stringsReplace original '/' "%2f"),
          ("encoded-backslash", stringsReplace original '/' "%5c"),
          ("double-encoded-slash", stringsReplace original '/' "%252f"),
          ("triple-encoded-slash", stringsReplace original '/' "%25252f") ]
    ∧ (∀ method ∈ methods, ∀ b, fetch original method = .ok b →
        ((processURL fetch iter original).probed method).Perm
            ((variants original).filter (fun e => decide (e.2 ≠ original)))
        ∧ ∀ label url, (label, url) ∈ (processURL fetch iter original).probed method
            ↔ ((label, url) ∈ variants original ∧ url ≠ original))
    ∧ (∀ method url, ("original", url) ∉ (processURL fetch iter original).probed method)
    ∧ ('/' ∉ original.data → ∀ method ∈ methods, ∀ b, fetch original method = .ok b →
        ((processURL fetch iter original).probed method).Perm
          [("trailing-slash", original ++ "/"), ("trailing-null", original ++ "%00"),
           ("trailing-dot", original ++ "/."), ("double-slash", original ++ "//")]) := by
  have hprobed : ∀ method ∈ methods, ∀ b, fetch original method = .ok b →
      ((processURL fetch iter original).probed method).Perm
        ((variants original).filter (fun e => decide (e.2 ≠ original))) := by
    intro method hm b hb
    rw [probed_of_baseline_ok fetch iter original method b hm hb]
    exact (hperm method).filter _
  refine ⟨rfl, ?_, ?_, ?_⟩
  · intro method hm b hb
    refine ⟨hprobed method hm b hb, ?_⟩
    intro label url
    rw [(hprobed method hm b hb).mem_iff, List.mem_filter]
    simp
  · intro method url hmem
    have h := mem_probed fetch iter original method _ hmem
    exact h.2 (original_entry original url ((hperm method).mem_iff.1 h.1))
  · intro hno method hm b hb
    rw [← variants_filter_of_no_slash original hno]
    exact hprobed method hm b hb

/-- C2 on the scenario server: under GET the nine entries other than `original`
are fetched. -/
theorem processURL_variants_fetched_witness :
    ((processURL scenarioFetch (fun _ => variants scenarioURL) scenarioURL).probed "GET").Perm
      ((variants scenarioURL).filter (fun e => decide (e.2 ≠ scenarioURL))) :=
  ((processURL_variants_fetched scenarioFetch (fun _ => variants scenarioURL) scenarioURL
    (fun _ => List.Perm.refl _)).2.1 "GET" (by decide) ⟨512, 403, "http://example.com/admin"⟩
    rfl).1

/-- C2 as stated fails where a baseline fails: on a server that refuses every
connection the trailing-slash variant differs from the base URL and is not
fetched, under either method; the two baseline calls are all the run fetches. -/
theorem processURL_variant_not_fetched :
    ("trailing-slash", "http://example.com/admin/") ∈ variants scenarioURL
    ∧ "http://example.com/admin/" ≠ scenarioURL
    ∧ (processURL refusedFetch (fun _ => variants scenarioURL) scenarioURL).fetched
        = [Call.baseline scenarioURL "GET", Call.baseline scenarioURL "POST"]
    ∧ Call.variant "trailing-slash" "http://example.com/admin/" "GET"
        ∉ (processURL refusedFetch (fun _ => variants scenarioURL) scenarioURL).fetched
    ∧ Call.variant "trailing-slash" "http://example.com/admin/" "POST"
        ∉ (processURL refusedFetch (fun _ => variants scenarioURL) scenarioURL).fetched := by
  refine ⟨by decide, by decide, by decide, by decide, by decide⟩

/-! ## C3: nine variants for a base URL with a slash -/

/-- C3. The backslash variant differs from the base URL if and only if the
base URL contains a slash; and for a base URL containing a slash, the map
holds nine labels beside `original`, each of the nine strings differs from the
base URL, and under every method whose baseline fetch succeeds exactly those
nine labels are fetched, one fetch each. -/
theorem processURL_nine_variants (fetch : String → String → FetchRes)
    (iter : String → List (String × String)) (original : String)
    (hperm : ∀ m, (iter m).Perm (variants original)) :
    (stringsReplace original '/' "\\" ≠ original ↔ '/' ∈ original.data)
    ∧ ('/' ∈ original.data →
        (variants original).map Prod.fst
            = ["original", "trailing-slash", "trailing-null", "trailing-dot", "double-slash",
               "backslash", "encoded-slash", "encoded-backslash", "double-encoded-slash",
               "triple-encoded-slash"]
        ∧ (∀ e ∈ variants original, e.1 ≠ "original" → e.2 ≠ original)
        ∧ ∀ method ∈ methods, ∀ b, fetch original method = .ok b →
            (((processURL fetch iter original).probed method).map Prod.fst).Perm
                ["trailing-slash", "trailing-null", "trailing-dot", "double-slash",
                 "backslash", "encoded-slash", "encoded-backslash", "double-encoded-slash",
                 "triple-encoded-slash"]
            ∧ ((processURL fetch iter original).probed method).length = 9
            ∧ ∀ e ∈ (processURL fetch iter original).probed method, e.2 ≠ original) := by
  refine ⟨stringsReplace_ne_iff original '/' "\\" (by decide), ?_⟩
  intro hslash
  have hfilter := variants_filter_of_slash original hslash
  refine ⟨rfl, ?_, ?_⟩
  · intro e he hlab
    have : e ∈ (variants original).tail := by
      simp only [variants, List.mem_cons, List.tail_cons] at he ⊢
      rcases he with he | he
      · exact absurd (by rw [he]) hlab
      · exact he
    rw [← hfilter, List.mem_filter] at this
    simpa using this.2
  · intro method hm b hb
    have hp : ((processURL fetch iter original).probed method).Perm (variants original).tail := by
      rw [probed_of_baseline_ok fetch iter original method b hm hb, ← hfilter]
      exact (hperm method).filter _
    refine ⟨hp.map Prod.fst, ?_, ?_⟩
    · rw [hp.length_eq]
      rfl
    · intro e he
      exact (mem_probed fetch iter original method e he).2

/-- C3 on the scenario server: nine fetches under GET. -/
theorem processURL_nine_variants_witness :
    ((processURL scenarioFetch (fun _ => variants scenarioURL) scenarioURL).probed "GET").length
      = 9 :=
  (((processURL_nine_variants scenarioFetch (fun _ => variants scenarioURL) scenarioURL
    (fun _ => List.Perm.refl _)).2 (by decide)).2.2 "GET" (by decide)
    ⟨512, 403, "http://example.com/admin"⟩ rfl).2.1

/-! ## Failures -/

theorem mem_probedIn (calls : List Call) (method label url : String) :
    (label, url) ∈ probedIn calls method ↔ Call.variant label url method ∈ calls := by
  unfold probedIn
  rw [List.mem_filterMap]
  constructor
  · rintro ⟨c, hc, h⟩
    cases c with
    | baseline u m => simp at h
    | variant l u m =>
      by_cases hm : m = method
      · simp only [hm, if_true, Option.some.injEq, Prod.mk.injEq] at h
        obtain ⟨h1, h2⟩ := h
        subst h1 h2 hm
        exact hc
      · simp [hm] at h
  · intro h
    exact ⟨_, h, by simp⟩

theorem filter_method_other (fetch : String → String → FetchRes) (original : String)
    (order : List (String × String)) (m method : String) (hne : m ≠ method) :
    (methodStep fetch original order m).results.filter
      (fun r => decide (r.Method = method)) = [] := by
  rw [List.filter_eq_nil_iff]
  intro r hr
  have := methodStep_method _ _ _ _ _ hr
  simp [this, hne]

theorem filter_method_self (fetch : String → String → FetchRes) (original : String)
    (order : List (String × String)) (method : String) :
    (methodStep fetch original order method).results.filter
      (fun r => decide (r.Method = method)) = (methodStep fetch original order method).results := by
  rw [List.filter_eq_self]
  intro r hr
  have := methodStep_method _ _ _ _ _ hr
  simp [this]

/-- The results of a run that carry a given method are those of the round of
the outer loop for that method. -/
theorem processURL_filter_method (fetch : String → String → FetchRes)
    (iter : String → List (String × String)) (original method : String)
    (hm : method ∈ methods) :
    (processURL fetch iter original).results.filter (fun r => decide (r.Method = method))
      = (methodStep fetch original (iter method) method).results := by
  rw [processURL_results, List.filter_append]
  simp only [methods, List.mem_cons, List.mem_singleton, List.not_mem_nil, or_false] at hm
  rcases hm with h | h
  · subst h
    rw [filter_method_self, filter_method_other _ _ _ "POST" "GET" (by decide), List.append_nil]
  · subst h
    rw [filter_method_self, filter_method_other _ _ _ "GET" "POST" (by decide), List.nil_append]

/-! ## C5: a failed baseline -/

/-- C5. For every base URL and each method of `methods` whose baseline fetch
fails with `err`: no variant is fetched under that method, and the results
carrying that method are exactly one result with `Error = err`, label
`original`, the base URL as `URL` and the method, when `err` does not contain
"no Host in request URL", and none when it does.  Hence a run in which both
baselines fail with an error containing it sends nothing at all. -/
theorem processURL_baseline_failure (fetch : String → String → FetchRes)
    (iter : String → List (String × String)) (original method err : String)
    (hm : method ∈ methods) (hb : fetch original method = .error err) :
    (∀ label url, Call.variant label url method ∉ (processURL fetch iter original).fetched)
    ∧ ((processURL fetch iter original).results.filter (fun r => decide (r.Method = method))
        = if stringsContains err "no Host in request URL" = true then []
          else [({ URL := original, Label := "original", Method := method,
                   Error := some err } : Result)])
    ∧ ((∀ m ∈ methods, ∃ e, fetch original m = .error e
          ∧ stringsContains e "no Host in request URL" = true) →
        (processURL fetch iter original).results = []) := by
  refine ⟨?_, ?_, ?_⟩
  · intro label url hmem
    have := (mem_probedIn _ method label url).2 hmem
    have hnil := probed_of_baseline_error fetch iter original method err hb
    unfold Run.probed at hnil
    rw [hnil] at this
    simp at this
  · rw [processURL_filter_method fetch iter original method hm,
      methodStep_error_results _ _ _ _ _ hb]
    unfold isNoHost failureResult
    cases stringsContains err "no Host in request URL" <;> rfl
  · intro hall
    obtain ⟨e1, h1, hn1⟩ := hall "GET" (by decide)
    obtain ⟨e2, h2, hn2⟩ := hall "POST" (by decide)
    rw [processURL_results, methodStep_error_results _ _ _ _ _ h1,
      methodStep_error_results _ _ _ _ _ h2]
    unfold isNoHost
    rw [hn1, hn2]
    rfl

/-- C5 on a server that refuses every connection: one failure result for the
baseline under GET. -/
theorem processURL_baseline_failure_witness :
    (processURL refusedFetch (fun _ => variants scenarioURL) scenarioURL).results.filter
        (fun r => decide (r.Method = "GET"))
      = [({ URL := "http://example.com/admin", Label := "original", Method := "GET",
            Error := some "dial tcp: connection refused" } : Result)] :=
  (processURL_baseline_failure refusedFetch (fun _ => variants scenarioURL) scenarioURL
    "GET" "dial tcp: connection refused" (by decide) rfl).2.1

/-! ## C10: failures stay local -/

theorem baseline_mem_methodStep (fetch : String → String → FetchRes) (original method : String)
    (order : List (String × String)) :
    Call.baseline original method ∈ (methodStep fetch original order method).fetched := by
  cases hb : fetch original method with
  | error err => rw [methodStep_error_fetched _ _ _ _ _ hb]; simp
  | ok b => rw [methodStep_ok_fetched _ _ _ _ _ hb]; simp

/-- C10. In every run both baselines are fetched, whatever any fetch under GET
gives; under every method whose baseline fetch succeeds every entry whose string
differs from the base URL is fetched, whatever the other fetches give; and when
the fetch of such an entry fails with `err`, the results carrying its label and
that method are exactly one result with `Error = err` and the variant string as
`URL` when `err` does not contain "no Host in request URL", and none when it
does. -/
theorem processURL_failures_local (fetch : String → String → FetchRes)
    (iter : String → List (String × String)) (original : String)
    (hperm : ∀ m, (iter m).Perm (variants original)) :
    (Call.baseline original "GET" ∈ (processURL fetch iter original).fetched
      ∧ Call.baseline original "POST" ∈ (processURL fetch iter original).fetched)
    ∧ (∀ method ∈ methods, ∀ b, fetch original method = .ok b →
        ∀ label url, (label, url) ∈ variants original → url ≠ original →
          Call.variant label url method ∈ (processURL fetch iter original).fetched)
    ∧ (∀ method ∈ methods, ∀ b, fetch original method = .ok b →
        ∀ label url err, (label, url) ∈ variants original → url ≠ original →
          fetch url method = .error err →
          (processURL fetch iter original).results.filter
              (fun r => decide (r.Label = label ∧ r.Method = method))
            = if stringsContains err "no Host in request URL" = true then []
              else [({ URL := url, Label := label, Method := method,
                       Error := some err } : Result)]) := by
  refine ⟨⟨?_, ?_⟩, ?_, ?_⟩
  · rw [processURL_fetched]
    exact List.mem_append_left _ (baseline_mem_methodStep _ _ _ _)
  · rw [processURL_fetched]
    exact List.mem_append_right _ (baseline_mem_methodStep _ _ _ _)
  · intro method hm b hb label url hl hne
    rw [← mem_probedIn]
    have h := probed_of_baseline_ok fetch iter original method b hm hb
    unfold Run.probed at h
    rw [h, List.mem_filter]
    exact ⟨(hperm method).mem_iff.2 hl, by simpa using hne⟩
  · intro method hm b hb label url err hl hne herr
    rw [processURL_filter fetch iter original method label url b hperm hm hb hl,
      variantStep_error fetch original method label url err b hne herr]
    unfold isNoHost failureResult
    cases stringsContains err "no Host in request URL" <;> rfl

/-- C10 on the scenario server: the double-slash variant is refused under GET,
which gives one failure result for it, and the POST baseline is fetched. -/
theorem processURL_failures_local_witness :
    Call.baseline scenarioURL "POST"
        ∈ (processURL scenarioFetch (fun _ => variants scenarioURL) scenarioURL).fetched
    ∧ (processURL scenarioFetch (fun _ => variants scenarioURL) scenarioURL).results.filter
          (fun r => decide (r.Label = "double-slash" ∧ r.Method = "GET"))
        = [({ URL := "http://example.com/admin//", Label := "double-slash", Method := "GET",
              Error := some "connection refused" } : Result)] :=
  ⟨(processURL_failures_local scenarioFetch (fun _ => variants scenarioURL) scenarioURL
      (fun _ => List.Perm.refl _)).1.2,
   (processURL_failures_local scenarioFetch (fun _ => variants scenarioURL) scenarioURL
      (fun _ => List.Perm.refl _)).2.2 "GET" (by decide) ⟨512, 403, "http://example.com/admin"⟩ rfl
      "double-slash" "http://example.com/admin//" "connection refused" (by decide) (by decide)
      rfl⟩

/-! ## C4: the retry loop of fetch -/

/-- C4 (as the code behaves). When `http.NewRequest` succeeds and each of the
three calls of `client.Do` fails with an error containing "timeout", `fetch`
makes exactly 3 attempts and returns the last error, and it calls `time.Sleep`
three times, with 1s, 2s and 3s: the third wait follows the last attempt.  When
the first call fails with an error not containing "timeout", `fetch` makes
exactly 1 attempt, does not sleep, and returns that error. -/
theorem fetch_retry (env : FetchEnv) (url method : String)
    (hreq : env.newRequest method url = none) :
    ((∀ i, i < 3 → ∃ e, env.clientDo (buildRequest url method) i = .failed e
          ∧ stringsContains e "timeout" = true) →
      ∃ e, env.clientDo (buildRequest url method) 2 = .failed e
        ∧ fetch env url method = (.error e, { attempts := 3, sleeps := [1, 2, 3] }))
    ∧ (∀ e, env.clientDo (buildRequest url method) 0 = .failed e →
        stringsContains e "timeout" = false →
        fetch env url method = (.error e, { attempts := 1, sleeps := [] })) := by
  constructor
  · intro h
    obtain ⟨e0, h0, c0⟩ := h 0 (by decide)
    obtain ⟨e1, h1, c1⟩ := h 1 (by decide)
    obtain ⟨e2, h2, c2⟩ := h 2 (by decide)
    refine ⟨e2, h2, ?_⟩
    simp [fetch, hreq, maxRetries, fetchLoop, h0, h1, h2, c0, c1, c2]
  · intro e h0 c0
    simp [fetch, hreq, maxRetries, fetchLoop, h0, c0]

/-- C4 on an environment where every attempt times out: three attempts, then
waits of 1s, 2s and 3s. -/
theorem fetch_retry_witness :
    ∃ e, fetch alwaysTimeoutEnv scenarioURL "GET"
      = (.error e, { attempts := 3, sleeps := [1, 2, 3] }) :=
  let ⟨e, _, h⟩ := (fetch_retry alwaysTimeoutEnv scenarioURL "GET" rfl).1
    (fun _ _ => ⟨"net/http: timeout awaiting response headers", rfl, by decide⟩)
  ⟨e, h⟩

theorem fetch_refused :
    fetch refusedEnv scenarioURL "GET"
      = (.error "dial tcp 127.0.0.1:80: connect: connection refused",
         { attempts := 1, sleeps := [] }) := rfl

/-! ## C6: the hop limit of the redirect hook -/

theorem CheckRedirect_disabled (req : Request) (via : List Request) :
    CheckRedirect false req via = .error .ErrUseLastResponse := by
  simp [CheckRedirect]

theorem CheckRedirect_limit (req : Request) (via : List Request) (h : 10 ≤ via.length) :
    CheckRedirect true req via = .error .ErrUseLastResponse := by
  simp [CheckRedirect, h]

theorem CheckRedirect_permits (req : Request) (via : List Request)
    (h1 : 1 ≤ via.length) (h9 : via.length ≤ 9) :
    ∃ req', CheckRedirect true req via = .ok req' := by
  cases via with
  | nil => simp at h1
  | cons first rest =>
    have hlt : ¬ (10 ≤ (first :: rest).length) := by omega
    unfold CheckRedirect
    simp only [Bool.not_true, Bool.false_eq_true, if_false, ge_iff_le, hlt]
    split <;> exact ⟨_, rfl⟩

theorem redirectsFollowed_eq (next : List Request → Request) :
    ∀ (fuel : Nat) (reqs : List Request), 1 ≤ reqs.length →
      redirectsFollowed true next fuel reqs = min fuel (10 - reqs.length)
  | 0, _, _ => by simp [redirectsFollowed]
  | fuel + 1, reqs, h1 => by
    unfold redirectsFollowed
    by_cases h10 : 10 ≤ reqs.length
    · rw [CheckRedirect_limit _ _ h10]
      simp only
      omega
    · obtain ⟨req', hreq'⟩ := CheckRedirect_permits (next reqs) reqs h1 (by omega)
      rw [hreq']
      simp only
      rw [redirectsFollowed_eq next fuel (reqs ++ [req']) (by simp)]
      simp only [List.length_append, List.length_singleton]
      omega

/-- C6 (as the code behaves). The hook is called at the `k`-th consecutive
redirect with the `k` requests made already.  With following disabled it
returns `ErrUseLastResponse` for every request; with following enabled it
permits the hop for `1 ≤ k ≤ 9` and returns `ErrUseLastResponse` at the 10th
redirect already, so that on a chain of redirects without end 9 hops are
followed, not 10. -/
theorem CheckRedirect_hop_limit (req : Request) (via : List Request) :
    CheckRedirect false req via = .error .ErrUseLastResponse
    ∧ (1 ≤ via.length → via.length ≤ 9 → ∃ req', CheckRedirect true req via = .ok req')
    ∧ (via.length = 10 → CheckRedirect true req via = .error .ErrUseLastResponse)
    ∧ (∀ (next : List Request → Request) (first : Request) (fuel : Nat), 10 ≤ fuel →
        redirectsFollowed true next fuel [first] = 9) := by
  refine ⟨CheckRedirect_disabled req via, CheckRedirect_permits req via, ?_, ?_⟩
  · intro h
    exact CheckRedirect_limit req via (by omega)
  · intro next first fuel hfuel
    rw [redirectsFollowed_eq next fuel [first] (by simp)]
    simp only [List.length_singleton]
    omega

/-- C6 at the 10th consecutive redirect of a GET fetch: the hook stops. -/
theorem CheckRedirect_hop_limit_witness :
    CheckRedirect true getNext (List.replicate 10 getFirst) = .error .ErrUseLastResponse :=
  (CheckRedirect_hop_limit getNext (List.replicate 10 getFirst)).2.2.1 (by decide)

/-! ## C7: what the redirect hook re-applies -/

theorem Header.get_assign_self (h : Header) (k : String) (v : List String) :
    (h.assign k v).get k = some v := by
  induction h with
  | nil => simp [Header.assign, Header.get]
  | cons e rest ih =>
    obtain ⟨k', v'⟩ := e
    by_cases hk : k' = k
    · simp [Header.assign, Header.get, hk]
    · simp [Header.assign, Header.get, hk, ih]

theorem Header.get_assign_ne (h : Header) (k k' : String) (v : List String) (hne : k' ≠ k) :
    (h.assign k v).get k' = h.get k' := by
  induction h with
  | nil => simp [Header.assign, Header.get, hne.symm]
  | cons e rest ih =>
    obtain ⟨k₀, v₀⟩ := e
    by_cases hk : k₀ = k
    · subst hk
      simp [Header.assign, Header.get, hne.symm]
    · by_cases hk' : k₀ = k'
      · subst hk'
        simp [Header.assign, Header.get, hk]
      · simp [Header.assign, Header.get, hk, hk', ih]

theorem Header.get_eq_none_of_not_mem (h : Header) (k : String)
    (hk : k ∉ h.map Prod.fst) : h.get k = none := by
  induction h with
  | nil => rfl
  | cons e rest ih =>
    obtain ⟨k₀, v₀⟩ := e
    simp only [List.map_cons, List.mem_cons, not_or] at hk
    simp [Header.get, Ne.symm hk.1, ih hk.2]

/-- Copying entries whose keys do not include `k` leaves `h[k]` as it was. -/
theorem Header.get_copy_of_not_mem (entries : Header) (k : String) :
    ∀ h : Header, k ∉ entries.map Prod.fst →
      (List.foldl (fun (h : Header) (kv : String × List String) => h.assign kv.1 kv.2)
        h entries).get k = h.get k := by
  induction entries with
  | nil => intro h _; rfl
  | cons e rest ih =>
    intro h hk
    simp only [List.map_cons, List.mem_cons, not_or] at hk
    rw [List.foldl_cons, ih _ hk.2, Header.get_assign_ne _ _ _ _ hk.1]

/-- The loop of lines 170-172: every entry of a map is copied. -/
theorem Header.get_copy (entries : Header) (k : String) (v : List String) :
    ∀ h : Header, (entries.map Prod.fst).Nodup → entries.get k = some v →
      (List.foldl (fun (h : Header) (kv : String × List String) => h.assign kv.1 kv.2)
        h entries).get k = some v := by
  induction entries with
  | nil => intro h _ hget; simp [Header.get] at hget
  | cons e rest ih =>
    intro h hnd hget
    obtain ⟨k₀, v₀⟩ := e
    rw [List.map_cons, List.nodup_cons] at hnd
    rw [List.foldl_cons]
    by_cases hk : k₀ = k
    · subst hk
      simp only [Header.get, if_true, Option.some.injEq] at hget
      subst hget
      rw [Header.get_copy_of_not_mem rest k₀ _ hnd.1, Header.get_assign_self]
    · simp only [Header.get, hk, if_false] at hget
      exact ih _ hnd.2 hget

/-- What the hook does to the upcoming request when it permits a hop: the
method becomes that of the first request; when that method is POST every header
of the first request is copied, Content-Type is then set and the content length
is 0; for any other method headers and content length stay as they were. -/
theorem CheckRedirect_effect (req first : Request) (rest : List Request)
    (hlen : (first :: rest).length < 10) (hkeys : (first.Header.map Prod.fst).Nodup) :
    ∃ req', CheckRedirect true req (first :: rest) = .ok req'
      ∧ req'.Method = first.Method
      ∧ req'.URL = req.URL
      ∧ (first.Method = "POST" →
          (∀ k v, k ≠ "Content-Type" → first.Header.get k = some v →
              req'.Header.get k = some v)
          ∧ req'.Header.get "Content-Type" = some ["application/x-www-form-urlencoded"]
          ∧ req'.ContentLength = 0)
      ∧ (first.Method ≠ "POST" →
          req'.Header = req.Header ∧ req'.ContentLength = req.ContentLength) := by
  have hlt : ¬ (10 ≤ (first :: rest).length) := by omega
  unfold CheckRedirect
  simp only [Bool.not_true, Bool.false_eq_true, if_false, ge_iff_le, hlt]
  by_cases hpost : first.Method = "POST"
  · simp only [hpost, if_true]
    refine ⟨_, rfl, rfl, rfl, ?_, ?_⟩
    · intro _
      refine ⟨?_, ?_, rfl⟩
      · intro k v hk hget
        simp only [Header.Set]
        rw [Header.get_assign_ne _ _ _ _ hk]
        exact Header.get_copy first.Header k v req.Header hkeys hget
      · simp only [Header.Set]
        exact Header.get_assign_self _ _ _
    · intro h
      exact absurd rfl h
  · simp only [hpost, if_false]
    refine ⟨_, rfl, rfl, rfl, ?_, ?_⟩
    · intro h
      exact h.elim
    · intro _
      exact ⟨rfl, rfl⟩

theorem buildRequest_Method (url method : String) :
    (buildRequest url method).Method = method := by
  unfold buildRequest
  split <;> rfl

theorem buildRequest_keys_nodup (url method : String) :
    ((buildRequest url method).Header.map Prod.fst).Nodup := by
  by_cases hp : method = "POST"
  · subst hp
    have hkeys : (buildRequest url "POST").Header.map Prod.fst
        = ["User-Agent", "Accept", "Accept-Language", "Content-Type"] := rfl
    rw [hkeys]
    decide
  · have hkeys : (buildRequest url method).Header.map Prod.fst
        = ["User-Agent", "Accept", "Accept-Language"] := by
      simp [buildRequest, hp, Header.Set, Header.assign]
    rw [hkeys]
    decide

theorem buildRequest_post_contentType (url : String) :
    (buildRequest url "POST").Header.get "Content-Type"
      = some ["application/x-www-form-urlencoded"] := rfl

/-- C7. `via[0]` is the request `fetch` built, `buildRequest url method`, and
`net/http` hands the hook an upcoming request `req` onto which it has copied
the headers of that first request (`hcarried`; it is needed for a method other
than POST only).  Whenever the hook permits the hop (following enabled, fewer
than 10 requests made already), then for every method, GET as well as POST, the
upcoming request leaves the hook with the method of the first request and with
every header of the first request; and when the method is POST it has content
length 0 and Content-Type application/x-www-form-urlencoded. -/
theorem CheckRedirect_reapplies (url method : String) (req : Request) (rest : List Request)
    (hlen : (buildRequest url method :: rest).length < 10)
    (hcarried : method ≠ "POST" → ∀ k v, (buildRequest url method).Header.get k = some v →
      req.Header.get k = some v) :
    ∃ req', CheckRedirect true req (buildRequest url method :: rest) = .ok req'
      ∧ req'.Method = method
      ∧ (∀ k v, (buildRequest url method).Header.get k = some v → req'.Header.get k = some v)
      ∧ (method = "POST" →
          req'.ContentLength = 0
          ∧ req'.Header.get "Content-Type" = some ["application/x-www-form-urlencoded"]) := by
  obtain ⟨req', h, hm, _, hpost, hother⟩ :=
    CheckRedirect_effect req (buildRequest url method) rest hlen
      (buildRequest_keys_nodup url method)
  rw [buildRequest_Method] at hm hpost hother
  refine ⟨req', h, hm, ?_, ?_⟩
  · intro k v hget
    by_cases hp : method = "POST"
    · subst hp
      by_cases hk : k = "Content-Type"
      · subst hk
        rw [buildRequest_post_contentType] at hget
        rw [← hget]
        exact (hpost rfl).2.1
      · exact (hpost rfl).1 k v hk hget
    · rw [(hother hp).1]
      exact hcarried hp k v hget
  · intro hp
    exact ⟨(hpost hp).2.2, (hpost hp).2.1⟩

/-- C7 on the first redirect of the GET fetch of `scenarioURL`: the upcoming
request leaves the hook as a GET carrying the User-Agent of the first request. -/
theorem CheckRedirect_reapplies_witness :
    ∃ req', CheckRedirect true getNext [buildRequest scenarioURL "GET"] = .ok req'
      ∧ req'.Method = "GET"
      ∧ req'.Header.get "User-Agent"
          = some ["Mozilla/5.0 (Windows NT 10.0; Win64; x64) AppleWebKit/537.36"] :=
  let ⟨req', h, hm, hhead, _⟩ :=
    CheckRedirect_reapplies scenarioURL "GET" getNext [] (by decide)
      (fun _ k v hget => by
        by_cases hk : k = "Referer"
        · subst hk
          have hnone : (buildRequest scenarioURL "GET").Header.get "Referer" = none := rfl
          rw [hnone] at hget
          cases hget
        · exact (Header.get_assign_ne _ "Referer" k _ hk).trans hget)
  ⟨req', h, hm, hhead "User-Agent" _ rfl⟩

/-! ## C8: the output loop -/

/-- A failure result is printed as one error line. -/
theorem printResult_failure (result : Result) (err : String) (h : result.Error = some err) :
    printResult result = [Output.errorLine result.Label result.URL result.Method err] := by
  simp [printResult, h]

/-- A result without error and with a variant size other than 0 is printed as
one block, opened by its one mismatch line. -/
theorem printResult_mismatch (result : Result) (h : result.Error = none)
    (hsize : result.Size ≠ 0) :
    (printResult result).head? = some (Output.mismatchLine result.Label result.Method)
    ∧ (printResult result).count (Output.mismatchLine result.Label result.Method) = 1
    ∧ (printResult result).getLast? = some Output.emptyLine := by
  unfold printResult
  simp only [h, hsize, ne_eq, not_false_eq_true, if_true]
  refine ⟨rfl, ?_, ?_⟩
  · split <;> split <;> simp [List.count_cons]
  · split <;> split <;> simp

/-- A result without error and with variant size 0 is not printed at all. -/
theorem printResult_size_zero (result : Result) (h : result.Error = none)
    (hsize : result.Size = 0) : printResult result = [] := by
  simp [printResult, h, hsize]

/-- C8 (as the code behaves). On the scenario server the trailing-dot variant
answers with an empty body and status 200 against a baseline of 512 bytes and
status 403: `processURL` sends the mismatch result for it under GET, and the
output loop prints nothing for that result. -/
theorem printResult_drops_empty_variant :
    mismatchResult scenarioURL "trailing-dot" "http://example.com/admin/." "GET"
        ⟨0, 200, "http://example.com/admin/."⟩ ⟨512, 403, "http://example.com/admin"⟩
      ∈ (processURL scenarioFetch (fun _ => variants scenarioURL) scenarioURL).results
    ∧ printResult (mismatchResult scenarioURL "trailing-dot" "http://example.com/admin/." "GET"
        ⟨0, 200, "http://example.com/admin/."⟩ ⟨512, 403, "http://example.com/admin"⟩) = []
    ∧ (printResults
        (processURL scenarioFetch (fun _ => variants scenarioURL) scenarioURL).results).count
          (Output.mismatchLine "trailing-dot" "GET") = 0 := by
  refine ⟨by decide, by decide, by decide⟩

/-! ## C9: removal of the default port -/

/-- C9 (as the code behaves). For a host that is an IPv6 literal the two URLs
are not mapped to the same one: with the default port the brackets are removed
together with the port, without it the host is left alone. -/
theorem removeDefaultPort_ipv6 :
    removeDefaultPort { Scheme := "http", Host := "[::1]:80", Path := "/x" }
      = { Scheme := "http", Host := "::1", Path := "/x" }
    ∧ removeDefaultPort { Scheme := "http", Host := "[::1]", Path := "/x" }
      = { Scheme := "http", Host := "[::1]", Path := "/x" }
    ∧ removeDefaultPort { Scheme := "https", Host := "[::1]:443", Path := "/x" }
      = { Scheme := "https", Host := "::1", Path := "/x" }
    ∧ removeDefaultPort { Scheme := "https", Host := "[::1]", Path := "/x" }
      = { Scheme := "https", Host := "[::1]", Path := "/x" } := by
  refine ⟨by decide, by decide, by decide, by decide⟩

/-- The example of the specification: `http://host:80/x` and `http://host/x`
are mapped to the same URL, and a port other than the default is kept. -/
theorem removeDefaultPort_host :
    removeDefaultPort { Scheme := "http", Host := "host:80", Path := "/x" }
      = removeDefaultPort { Scheme := "http", Host := "host", Path := "/x" }
    ∧ removeDefaultPort { Scheme := "http", Host := "host:8080", Path := "/x" }
      = { Scheme := "http", Host := "host:8080", Path := "/x" } := by
  refine ⟨by decide, by decide⟩

theorem lastIndexByte_of_not_mem (c : Char) :
    ∀ l : List Char, c ∉ l → lastIndexByte l c = none
  | [], _ => rfl
  | x :: xs, h => by
    have hx : x ≠ c := fun hx => h (hx ▸ List.mem_cons_self _ _)
    have hxs : c ∉ xs := fun hm => h (List.mem_cons_of_mem _ hm)
    simp [lastIndexByte, lastIndexByte_of_not_mem c xs hxs, hx]

theorem lastIndexByte_append (c : Char) (p : List Char) (hp : c ∉ p) :
    ∀ l : List Char, lastIndexByte (l ++ c :: p) c = some l.length
  | [] => by simp [lastIndexByte, lastIndexByte_of_not_mem c p hp]
  | x :: xs => by
    simp [lastIndexByte, lastIndexByte_append c p hp xs]

/-- A host without colon and without brackets has no port. -/
theorem splitHostPort_plain (h : String) (hcolon : ':' ∉ h.data)
    (hbr : ¬ (h.data.head? = some '[' ∧ h.data.getLast? = some ']')) :
    splitHostPort h = (h, "") := by
  unfold splitHostPort
  simp only [lastIndexByte_of_not_mem ':' h.data hcolon, hbr, if_false]

/-- After a host without brackets, a colon and digits are split off as the port. -/
theorem splitHostPort_port (h p : String) (hcolon : ':' ∉ p.data)
    (hvalid : validOptionalPort (':' :: p.data) = true)
    (hbr : ¬ (h.data.head? = some '[' ∧ h.data.getLast? = some ']')) :
    splitHostPort (h ++ ":" ++ p) = (h, p) := by
  have hdata : (h ++ ":" ++ p).data = h.data ++ ':' :: p.data := by
    simp [String.data_append]
  have hdrop : List.drop h.data.length (h.data ++ ':' :: p.data) = ':' :: p.data :=
    List.drop_left _ _
  have htake : List.take h.data.length (h.data ++ ':' :: p.data) = h.data :=
    List.take_left _ _
  have hdrop1 : List.drop (h.data.length + 1) (h.data ++ ':' :: p.data) = p.data := by
    rw [← List.drop_drop, hdrop]
    rfl
  unfold splitHostPort
  simp only [hdata, lastIndexByte_append ':' p.data hcolon h.data, hdrop, htake, hdrop1,
    hvalid, if_true, hbr, if_false]

/-- For a host without colon and without brackets the default port is
removed and nothing else changes, such a host without port is left alone, and
a port of digits other than the default one is kept. -/
theorem removeDefaultPort_plain_host (u : URL) (h : String) (hcolon : ':' ∉ h.data)
    (hbr : ¬ (h.data.head? = some '[' ∧ h.data.getLast? = some ']')) :
    (u.Scheme = "http" →
        removeDefaultPort { u with Host := h ++ ":80" } = { u with Host := h }
        ∧ removeDefaultPort { u with Host := h } = { u with Host := h })
    ∧ (u.Scheme = "https" →
        removeDefaultPort { u with Host := h ++ ":443" } = { u with Host := h }
        ∧ removeDefaultPort { u with Host := h } = { u with Host := h })
    ∧ (∀ p : String, ':' ∉ p.data → validOptionalPort (':' :: p.data) = true →
        (u.Scheme = "http" → p ≠ "80") → (u.Scheme = "https" → p ≠ "443") →
        removeDefaultPort { u with Host := h ++ ":" ++ p } = { u with Host := h ++ ":" ++ p }) := by
  have h80 : h ++ ":80" = h ++ ":" ++ "80" := by rw [String.append_assoc]; rfl
  have h443 : h ++ ":443" = h ++ ":" ++ "443" := by rw [String.append_assoc]; rfl
  have s80 := splitHostPort_port h "80" (by decide) (by decide) hbr
  have s443 := splitHostPort_port h "443" (by decide) (by decide) hbr
  have s0 := splitHostPort_plain h hcolon hbr
  refine ⟨?_, ?_, ?_⟩
  · intro hs
    constructor
    · simp [removeDefaultPort, URL.Port, URL.Hostname, hs, h80, s80]
    · simp [removeDefaultPort, URL.Port, URL.Hostname, hs, s0]
  · intro hs
    constructor
    · simp [removeDefaultPort, URL.Port, URL.Hostname, hs, h443, s443]
    · simp [removeDefaultPort, URL.Port, URL.Hostname, hs, s0]
  · intro p hp hvalid hhttp hhttps
    have sp := splitHostPort_port h p hp hvalid hbr
    unfold removeDefaultPort
    simp only [URL.Port, URL.Hostname, sp]
    by_cases h1 : u.Scheme = "http"
    · have : u.Scheme ≠ "https" := by rw [h1]; decide
      simp [h1, hhttp h1]
    · by_cases h2 : u.Scheme = "https"
      · simp [h2, hhttps h2]
      · simp [h1, h2]

/-- The same on the strings `fetch` returns, for a library whose `Parse` splits
the two URLs into the same fields but for the host. -/
theorem normalizeFinalURL_plain_host (parse : String → Option URL) (render : URL → String)
    (u : URL) (h withPort withoutPort : String) (hcolon : ':' ∉ h.data)
    (hbr : ¬ (h.data.head? = some '[' ∧ h.data.getLast? = some ']'))
    (hscheme : u.Scheme = "http")
    (h1 : parse withPort = some { u with Host := h ++ ":80" })
    (h2 : parse withoutPort = some { u with Host := h }) :
    normalizeFinalURL parse render withPort = normalizeFinalURL parse render withoutPort := by
  have := (removeDefaultPort_plain_host u h hcolon hbr).1 hscheme
  simp [normalizeFinalURL, h1, h2, this.1, this.2]

/-! ## No call of fetch is repeated within a run

Each pair `(url, method)` is fetched at most once in a run of `processURL`, so
taking the outcomes of the calls of one run as a function of `(url, method)`
loses nothing. -/

theorem append_left_ne (u s t : String) (h : s ≠ t) : u ++ s ≠ u ++ t := by
  intro heq
  apply h
  have hd : (u ++ s).data = (u ++ t).data := by rw [heq]
  rw [String.data_append, String.data_append] at hd
  exact String.ext (List.append_cancel_left hd)

theorem mem_append_data (u s : String) (c : Char) (h : c ∈ u.data ∨ c ∈ s.data) :
    c ∈ (u ++ s).data := by
  rw [String.data_append, List.mem_append]
  exact h

theorem appended_ne_replaced (u s new : String) (hnew : '/' ∉ new.data)
    (h : '/' ∈ u.data ∨ '/' ∈ s.data) : u ++ s ≠ stringsReplace u '/' new := by
  intro heq
  have := mem_append_data u s '/' h
  rw [heq] at this
  exact not_mem_stringsReplace u '/' new hnew this

/-- Two replacements that part ways after a common beginning give different
strings as soon as something is replaced. -/
theorem flatMap_replace_ne (old a b : Char) (p r₁ r₂ : List Char) (hab : a ≠ b) :
    ∀ l : List Char, old ∈ l →
      l.flatMap (fun c => if c = old then p ++ a :: r₁ else [c])
        ≠ l.flatMap (fun c => if c = old then p ++ b :: r₂ else [c])
  | [], h => by simp at h
  | x :: xs, h => by
    rw [List.flatMap_cons, List.flatMap_cons]
    by_cases hx : x = old
    · rw [if_pos hx, if_pos hx, List.append_assoc, List.append_assoc]
      intro heq
      have := List.append_cancel_left heq
      simp only [List.cons_append, List.cons.injEq] at this
      exact hab this.1
    · rw [if_neg hx, if_neg hx]
      have hxs : old ∈ xs := by
        rcases List.mem_cons.1 h with h | h
        · exact absurd h.symm hx
        · exact h
      intro heq
      simp only [List.singleton_append, List.cons.injEq, true_and] at heq
      exact flatMap_replace_ne old a b p r₁ r₂ hab xs hxs heq

theorem stringsReplace_ne (s : String) (old a b : Char) (p r₁ r₂ : List Char) (hab : a ≠ b)
    (h : old ∈ s.data) :
    stringsReplace s old (String.mk (p ++ a :: r₁))
      ≠ stringsReplace s old (String.mk (p ++ b :: r₂)) := by
  unfold stringsReplace
  intro heq
  exact flatMap_replace_ne old a b p r₁ r₂ hab s.data h (congrArg String.data heq)

/-- The strings fetched as variants of one base URL are pairwise different. -/
theorem variants_urls_nodup (original : String) :
    (((variants original).filter (fun e => decide (e.2 ≠ original))).map Prod.snd).Nodup := by
  have a12 := append_left_ne original "/" "%00" (by decide)
  have a13 := append_left_ne original "/" "/." (by decide)
  have a14 := append_left_ne original "/" "//" (by decide)
  have a23 := append_left_ne original "%00" "/." (by decide)
  have a24 := append_left_ne original "%00" "//" (by decide)
  have a34 := append_left_ne original "/." "//" (by decide)
  by_cases h : '/' ∈ original.data
  · rw [variants_filter_of_slash original h]
    have b1 := fun new hnew => appended_ne_replaced original "/" new hnew (Or.inl h)
    have b2 := fun new hnew => appended_ne_replaced original "%00" new hnew (Or.inl h)
    have b3 := fun new hnew => appended_ne_replaced original "/." new hnew (Or.inl h)
    have b4 := fun new hnew => appended_ne_replaced original "//" new hnew (Or.inl h)
    have c56 : stringsReplace original '/' "\\" ≠ stringsReplace original '/' "%2f" :=
      stringsReplace_ne original '/' '\\' '%' [] [] ['2', 'f'] (by decide) h
    have c57 : stringsReplace original '/' "\\" ≠ stringsReplace original '/' "%5c" :=
      stringsReplace_ne original '/' '\\' '%' [] [] ['5', 'c'] (by decide) h
    have c58 : stringsReplace original '/' "\\" ≠ stringsReplace original '/' "%252f" :=
      stringsReplace_ne original '/' '\\' '%' [] [] ['2', '5', '2', 'f'] (by decide) h
    have c59 : stringsReplace original '/' "\\" ≠ stringsReplace original '/' "%25252f" :=
      stringsReplace_ne original '/' '\\' '%' [] [] ['2', '5', '2', '5', '2', 'f'] (by decide) h
    have c67 : stringsReplace original '/' "%2f" ≠ stringsReplace original '/' "%5c" :=
      stringsReplace_ne original '/' '2' '5' ['%'] ['f'] ['c'] (by decide) h
    have c68 : stringsReplace original '/' "%2f" ≠ stringsReplace original '/' "%252f" :=
      stringsReplace_ne original '/' 'f' '5' ['%', '2'] [] ['2', 'f'] (by decide) h
    have c69 : stringsReplace original '/' "%2f" ≠ stringsReplace original '/' "%25252f" :=
      stringsReplace_ne original '/' 'f' '5' ['%', '2'] [] ['2', '5', '2', 'f'] (by decide) h
    have c78 : stringsReplace original '/' "%5c" ≠ stringsReplace original '/' "%252f" :=
      stringsReplace_ne original '/' '5' '2' ['%'] ['c'] ['5', '2', 'f'] (by decide) h
    have c79 : stringsReplace original '/' "%5c" ≠ stringsReplace original '/' "%25252f" :=
      stringsReplace_ne original '/' '5' '2' ['%'] ['c'] ['5', '2', '5', '2', 'f'] (by decide) h
    have c89 : stringsReplace original '/' "%252f" ≠ stringsReplace original '/' "%25252f" :=
      stringsReplace_ne original '/' 'f' '5' ['%', '2', '5', '2'] [] ['2', 'f'] (by decide) h
    simp only [variants, List.tail_cons, List.map_cons, List.map_nil, List.nodup_cons,
      List.mem_cons, List.mem_singleton, List.not_mem_nil, not_or, List.nodup_nil, or_false,
      and_true, not_false_eq_true]
    refine ⟨⟨a12, a13, a14, b1 _ (by decide), b1 _ (by decide), b1 _ (by decide),
        b1 _ (by decide), b1 _ (by decide)⟩,
      ⟨a23, a24, b2 _ (by decide), b2 _ (by decide), b2 _ (by decide), b2 _ (by decide),
        b2 _ (by decide)⟩,
      ⟨a34, b3 _ (by decide), b3 _ (by decide), b3 _ (by decide), b3 _ (by decide),
        b3 _ (by decide)⟩,
      ⟨b4 _ (by decide), b4 _ (by decide), b4 _ (by decide), b4 _ (by decide),
        b4 _ (by decide)⟩,
      ⟨c56, c57, c58, c59⟩, ⟨c67, c68, c69⟩, ⟨c78, c79⟩, c89⟩
  · rw [variants_filter_of_no_slash original h]
    simp only [List.map_cons, List.map_nil, List.nodup_cons, List.mem_cons,
      List.mem_singleton, List.not_mem_nil, not_or, List.nodup_nil, or_false, and_true,
      not_false_eq_true]
    exact ⟨⟨a12, a13, a14⟩, ⟨a23, a24⟩, a34⟩

theorem variantSteps_fetched (fetch : String → String → FetchRes) (original method : String)
    (b : FetchOk) (order : List (String × String)) :
    order.flatMap (fun e => (variantStep fetch original method b e).fetched)
      = (order.filter (fun e => decide (e.2 ≠ original))).map
          (fun e => Call.variant e.1 e.2 method) := by
  induction order with
  | nil => rfl
  | cons e rest ih =>
    rw [List.flatMap_cons, ih, variantStep_fetched]
    by_cases he : e.2 = original <;> simp [List.filter_cons, he]

theorem methodStep_requests_method (fetch : String → String → FetchRes)
    (original method : String) (order : List (String × String)) (c : Call)
    (hc : c ∈ (methodStep fetch original order method).fetched) : c.request.2 = method := by
  cases hb : fetch original method with
  | error err =>
    rw [methodStep_error_fetched _ _ _ _ _ hb, List.mem_singleton] at hc
    subst hc
    rfl
  | ok b =>
    rw [methodStep_ok_fetched _ _ _ _ _ hb, variantSteps_fetched, List.mem_cons,
      List.mem_map] at hc
    rcases hc with hc | ⟨e, _, hc⟩
    · subst hc
      rfl
    · subst hc
      rfl

theorem methodStep_requests_nodup (fetch : String → String → FetchRes)
    (original method : String) (order : List (String × String))
    (hperm : order.Perm (variants original)) :
    ((methodStep fetch original order method).fetched.map Call.request).Nodup := by
  cases hb : fetch original method with
  | error err =>
    rw [methodStep_error_fetched _ _ _ _ _ hb]
    simp
  | ok b =>
    rw [methodStep_ok_fetched _ _ _ _ _ hb, variantSteps_fetched, List.map_cons,
      List.map_map, List.nodup_cons]
    have hurls : (((order.filter (fun e => decide (e.2 ≠ original))).map Prod.snd)).Nodup :=
      (((hperm.filter _).map Prod.snd).nodup_iff).2 (variants_urls_nodup original)
    constructor
    · intro hmem
      obtain ⟨e, he, heq⟩ := List.mem_map.1 hmem
      have hne : e.2 ≠ original := by simpa using (List.mem_filter.1 he).2
      simp only [Function.comp, Call.request, Prod.mk.injEq] at heq
      exact hne heq.1
    · have hcomp : (Call.request ∘ fun e : String × String => Call.variant e.1 e.2 method)
          = (fun u : String => (u, method)) ∘ Prod.snd := by
        funext e
        rfl
      rw [hcomp, ← List.map_map]
      exact hurls.map (fun u v huv => (Prod.mk.inj huv).1)

/-- In a run of `processURL` no pair `(url, method)` is fetched twice. -/
theorem processURL_requests_nodup (fetch : String → String → FetchRes)
    (iter : String → List (String × String)) (original : String)
    (hperm : ∀ m, (iter m).Perm (variants original)) :
    ((processURL fetch iter original).fetched.map Call.request).Nodup := by
  rw [processURL_fetched, List.map_append, List.nodup_append]
  refine ⟨methodStep_requests_nodup fetch original "GET" _ (hperm "GET"),
    methodStep_requests_nodup fetch original "POST" _ (hperm "POST"), ?_⟩
  intro r h1 h2
  obtain ⟨c1, hc1, rfl⟩ := List.mem_map.1 h1
  obtain ⟨c2, hc2, heq⟩ := List.mem_map.1 h2
  have m1 := methodStep_requests_method _ _ _ _ _ hc1
  have m2 := methodStep_requests_method _ _ _ _ _ hc2
  rw [heq, m1] at m2
  exact absurd m2 (by decide)

/-! ## The scenarios of the specification -/

/-- On the scenario server the run sends, under each method, the mismatch of
the trailing-slash variant (2048/200 against 512/403), the mismatch of the
trailing-dot variant (0/200) and the failure of the refused double-slash
variant: nothing for the trailing-null variant (404 with another size) and
nothing for the variants without host. -/
theorem processURL_scenario :
    (processURL scenarioFetch (fun _ => variants scenarioURL) scenarioURL).results.map
        (fun r => (r.Label, r.Method, r.Size, r.Status, r.Error))
      = [("trailing-slash", "GET", 2048, 200, none),
         ("trailing-dot", "GET", 0, 200, none),
         ("double-slash", "GET", 0, 0, some "connection refused"),
         ("trailing-slash", "POST", 2048, 200, none),
         ("trailing-dot", "POST", 0, 200, none),
         ("double-slash", "POST", 0, 0, some "connection refused")] := by
  decide

end Slasher
